import Mathlib

/-!
Shallow embedding of `exceptiongroup/__init__.py` (class `ExceptionGroup`).

Python exceptions are modelled by `Exc`: an identity tag `id` (Python's
default `==` on `BaseException` is object identity) and a runtime-type tag
`kind` (used by `isinstance`).  An arbitrary Python object that may or may
not be an exception is a `Value`.  The magic attributes `__traceback__`,
`__context__`, `__cause__`, `__suppress_context__` are fields of the group;
the CPython side effect "assigning `__cause__` also sets
`__suppress_context__` to `True`" is modelled by the setter `setCause`.
Raising (`raise`) and the constructor raising `TypeError` / `ValueError`
are modelled with `Except` / `Option` results.
-/

/-- A Python `BaseException` instance: `id` is object identity, `kind` its
runtime type tag (`isinstance` with no subtyping, as used on leaf types). -/
structure Exc where
  id : Nat
  kind : Nat
deriving DecidableEq, Repr

/-- An arbitrary Python object: either a `BaseException` or something else. -/
inductive Value where
  | exc (e : Exc)
  | other (n : Nat)
deriving DecidableEq, Repr

/-- Python `isinstance(v, BaseException)`. -/
def Value.isBaseException : Value → Bool
  | .exc _ => true
  | .other _ => false

/-- A traceback object is opaque; we only track which one it is. -/
abbrev Traceback := Nat

/-- The state of an `ExceptionGroup` instance: the three data attributes
set by `__init__` plus the four magic `BaseException` attributes. -/
structure ExceptionGroup where
  message : String
  exceptions : List Exc
  sources : List String
  traceback : Option Traceback
  context : Option Exc
  cause : Option Exc
  suppress_context : Bool
deriving DecidableEq, Repr

namespace ExceptionGroup

/-- Assignment `dst.__traceback__ = tb`. -/
def setTraceback (g : ExceptionGroup) (tb : Option Traceback) : ExceptionGroup :=
  { g with traceback := tb }

/-- Assignment `dst.__context__ = c`. -/
def setContext (g : ExceptionGroup) (c : Option Exc) : ExceptionGroup :=
  { g with context := c }

/-- Assignment `dst.__cause__ = c`.  CPython's `BaseException.__cause__` setter also
sets `__suppress_context__` to `True`; this is the documented side effect
the source's `_copy_magic_attrs` works around. -/
def setCause (g : ExceptionGroup) (c : Option Exc) : ExceptionGroup :=
  { g with cause := c, suppress_context := true }

/-- Assignment `dst.__suppress_context__ = b`. -/
def setSuppressContext (g : ExceptionGroup) (b : Bool) : ExceptionGroup :=
  { g with suppress_context := b }

end ExceptionGroup

/-- The errors `ExceptionGroup.__init__` can raise: `TypeError` for a
non-exception member (carrying the offending value, per
`"Expected an exception object, not {!r}"`), `ValueError` for a length
mismatch (carrying the two lengths, per
`"different number of sources ({}) and exceptions ({})"`). -/
inductive ConstructError where
  | invalidMember (offending : Value)
  | lengthMismatch (numSources numExceptions : Nat)
deriving DecidableEq, Repr

/-- The `for exc in self.exceptions: if not isinstance(exc, BaseException):
raise TypeError(...)` loop: returns the members as exceptions, or the first
offending value. -/
def checkMembers : List Value → Except ConstructError (List Exc)
  | [] => .ok []
  | .exc e :: rest => (checkMembers rest).map (fun es => e :: es)
  | .other n :: rest =>
      let _ := rest
      .error (.invalidMember (.other n))

/-- Constructor `ExceptionGroup.__init__(message, exceptions, sources)`: the membership
check runs first (raising `TypeError` at the first non-exception), then the
length check (raising `ValueError` with both lengths); on success the new
instance holds copies of both sequences and the magic attributes have their
freshly-constructed defaults (`None`/`None`/`None`/`False`). -/
def construct (message : String) (exceptions : List Value) (sources : List String) :
    Except ConstructError ExceptionGroup :=
  match checkMembers exceptions with
  | .error e => .error e
  | .ok excs =>
      if sources.length ≠ excs.length then
        .error (.lengthMismatch sources.length excs.length)
      else
        .ok { message := message, exceptions := excs, sources := sources,
              traceback := none, context := none, cause := none,
              suppress_context := false }

namespace ExceptionGroup

/-- The class invariant maintained by every operation. -/
def wf (g : ExceptionGroup) : Prop :=
  g.exceptions.length = g.sources.length

instance (g : ExceptionGroup) : Decidable g.wf := by
  unfold wf; infer_instance

/-- Method `_copy_magic_attrs(self, dst)`: assigns `__traceback__`, `__context__`,
`__cause__`, `__suppress_context__` to `dst`, in that order (the order in
the source; `__suppress_context__` last, after `__cause__`). -/
def copyMagicAttrs (g dst : ExceptionGroup) : ExceptionGroup :=
  ((((dst.setTraceback g.traceback).setContext g.context).setCause
      g.cause).setSuppressContext g.suppress_context)

/-- Method `__copy__(self)`: construct a new group from the same data, then
`_copy_magic_attrs`.  The constructor call can only fail if `self` violates
the class invariant; that case is `none`. -/
def copy (g : ExceptionGroup) : Option ExceptionGroup :=
  match construct g.message (g.exceptions.map Value.exc) g.sources with
  | .ok ng => some (g.copyMagicAttrs ng)
  | .error e =>
      let _ := e
      none

/-- Method `add(self, exception, source)`: construct a new group with the member
and source appended, then `_copy_magic_attrs`.  `none` models the
constructor raising (non-exception `exception`, or a `self` that violates
the invariant). -/
def add (g : ExceptionGroup) (exception : Value) (source : String) :
    Option ExceptionGroup :=
  match construct g.message (g.exceptions.map Value.exc ++ [exception])
      (g.sources ++ [source]) with
  | .ok ng => some (g.copyMagicAttrs ng)
  | .error e =>
      let _ := e
      none

/-- Method `__len__(self)`. -/
def count (g : ExceptionGroup) : Nat :=
  g.exceptions.length

/-- Method `__bool__(self)`: `bool(self.exceptions)`. -/
def toBool (g : ExceptionGroup) : Bool :=
  !g.exceptions.isEmpty

/-- Method `__contains__(self, exception)`: `exception in self.exceptions`. -/
def containsExc (g : ExceptionGroup) (exception : Exc) : Bool :=
  g.exceptions.contains exception

end ExceptionGroup

/-- Python `list.index(x)`: index of the first element equal to `x`, or the
`ValueError` case as `none`. -/
def listIndex (x : Exc) : List Exc → Option Nat
  | [] => none
  | y :: ys => if y = x then some 0 else (listIndex x ys).map (· + 1)

/-- The error `remove` raises when the member is absent (`ValueError`,
`"{!r} not contained in {!r}"`: it reports the value and the group), or a
propagated constructor error. -/
inductive RemoveError where
  | notAMember (exception : Exc) (group : ExceptionGroup)
  | constructFailed (e : ConstructError)
deriving DecidableEq, Repr

namespace ExceptionGroup

/-- Method `remove(self, exception)`: find the first index of `exception` in
`self.exceptions` (`ValueError` reporting the value and the group if
absent), build a new group from both lists with that index excised
(`[:idx] + [idx+1:]`), and `_copy_magic_attrs` onto it. -/
def remove (g : ExceptionGroup) (exception : Exc) :
    Except RemoveError ExceptionGroup :=
  match listIndex exception g.exceptions with
  | none => .error (.notAMember exception g)
  | some idx =>
      match construct g.message
          ((g.exceptions.take idx ++ g.exceptions.drop (idx + 1)).map Value.exc)
          (g.sources.take idx ++ g.sources.drop (idx + 1)) with
      | .ok ng => .ok (g.copyMagicAttrs ng)
      | .error e => .error (.constructFailed e)

end ExceptionGroup

/-- The `predicate` argument of `find`/`findall`: a callable, a single
type, or a tuple of types. -/
inductive Predicate where
  | callable (f : Exc → Bool)
  | kind (k : Nat)
  | kinds (ks : List Nat)

/-- The `if isinstance(predicate, (type, tuple)): predicate = lambda _exc:
isinstance(_exc, exc_type)` step: a type or tuple of types becomes the
`isinstance` test on the member's runtime kind. -/
def Predicate.resolve : Predicate → (Exc → Bool)
  | .callable f => f
  | .kind k => fun e => e.kind == k
  | .kinds ks => fun e => ks.contains e.kind

namespace ExceptionGroup

/-- Method `findall(self, predicate, with_source=False)`: the
`yield from filter(predicate, self.exceptions)` branch, as the finite list
the generator produces. -/
def findall (g : ExceptionGroup) (p : Predicate) : List Exc :=
  g.exceptions.filter p.resolve

/-- Method `findall(self, predicate, with_source=True)`: the
`for exception, source in zip(self.exceptions, self.sources): if
predicate(exception): yield exception, source` branch, as the finite list
the generator produces. -/
def findallWithSource (g : ExceptionGroup) (p : Predicate) :
    List (Exc × String) :=
  (g.exceptions.zip g.sources).filter (fun es => p.resolve es.1)

/-- Method `find(self, predicate, with_source=False)`: the first item `findall`
yields, or `None`. -/
def find (g : ExceptionGroup) (p : Predicate) : Option Exc :=
  (g.findall p).head?

/-- Method `find(self, predicate, with_source=True)`: the first pair `findall`
yields, or `None`. -/
def findWithSource (g : ExceptionGroup) (p : Predicate) :
    Option (Exc × String) :=
  (g.findallWithSource p).head?

end ExceptionGroup

/-- The value a `raise` statement in `maybe_reraise` throws: either the
lone child (the unwrap case) or the group itself. -/
inductive Raised where
  | child (e : Exc)
  | group (g : ExceptionGroup)
deriving DecidableEq, Repr

/-- The `from_exception` argument of `maybe_reraise`: the sentinel default
`0`, or an explicitly passed exception / explicit `None`. -/
inductive FromExc where
  | sentinel
  | explicitly (e : Option Exc)
deriving DecidableEq, Repr

namespace ExceptionGroup

/-- Method `maybe_reraise(self, from_exception=0, unwrap=True)`.  Here `ambient` is
`sys.exc_info()[1]`, the in-flight exception of the enclosing `except`
block (or `None`).  The result is `none` when the call returns normally
(empty group), and otherwise `some (value, cause)`: the value thrown by
`raise exc from from_exception` together with the `__cause__` that the
`from` clause attaches to it. -/
def maybeReraise (g : ExceptionGroup) (ambient : Option Exc)
    (from_exception : FromExc) (unwrap : Bool) : Option (Raised × Option Exc) :=
  if g.exceptions.isEmpty then
    none
  else
    let exc : Raised :=
      if unwrap && g.exceptions.length == 1 then
        match g.exceptions.head? with
        | some e => .child e
        | none => .group g
      else
        .group g
    let fromExc : Option Exc :=
      match from_exception with
      | .sentinel => ambient
      | .explicitly e => e
    some (exc, fromExc)

end ExceptionGroup

/-!
Heap model for the copy-on-construct behaviour.  `__init__` stores
`list(exceptions)` and `list(sources)` — fresh list objects — rather than
aliasing the caller's lists.  To state that a later mutation of the
caller's list cannot affect the instance, lists are placed in an explicit
heap of cells addressed by allocation order; `list(xs)` is an allocation
of a new cell holding the current contents of `xs`.
-/

/-- A heap of mutable Python lists with element type `α`; addresses are
allocation indices. -/
structure Heap (α : Type) where
  cells : List (List α)
deriving Repr

namespace Heap

/-- Read the list object at `addr` (contents of the cell). -/
def read (h : Heap α) (addr : Nat) : List α :=
  h.cells.getD addr []

/-- Python `list(xs)`: allocate a fresh cell holding `xs`; returns the heap and
the new object's address. -/
def alloc (h : Heap α) (xs : List α) : Heap α × Nat :=
  (⟨h.cells ++ [xs]⟩, h.cells.length)

/-- An in-place mutation of the list object at `addr` (e.g. `append`,
`clear`, slice assignment): its cell now holds `xs`. -/
def write (h : Heap α) (addr : Nat) (xs : List α) : Heap α :=
  ⟨h.cells.set addr xs⟩

/-- Address `addr` denotes an allocated object. -/
def valid (h : Heap α) (addr : Nat) : Prop :=
  addr < h.cells.length

instance (h : Heap α) (addr : Nat) : Decidable (h.valid addr) := by
  unfold valid
  infer_instance

end Heap

/-- An `ExceptionGroup` instance as it lives on the heap: `self.exceptions`
and `self.sources` are references to list objects. -/
structure ExceptionGroupRef where
  message : String
  excAddr : Nat
  srcAddr : Nat
deriving DecidableEq, Repr

/-- Constructor `__init__` against the heap: read the caller's two list objects, run
the membership and length checks of `construct`, and on success store the
addresses of the two fresh cells made by `list(exceptions)` and
`list(sources)`. -/
def constructRef (hE : Heap Value) (hS : Heap String) (message : String)
    (excAddr srcAddr : Nat) :
    Except ConstructError (Heap Value × Heap String × ExceptionGroupRef) :=
  match checkMembers (hE.read excAddr) with
  | .error e => .error e
  | .ok excs =>
      if (hS.read srcAddr).length ≠ excs.length then
        .error (.lengthMismatch (hS.read srcAddr).length excs.length)
      else
        .ok ((hE.alloc (hE.read excAddr)).1, (hS.alloc (hS.read srcAddr)).1,
          ⟨message, (hE.alloc (hE.read excAddr)).2,
            (hS.alloc (hS.read srcAddr)).2⟩)



/-! ### Helper lemmas -/

theorem checkMembers_map_exc (es : List Exc) :
    checkMembers (es.map Value.exc) = .ok es := by
  induction es with
  | nil => rfl
  | cons e rest ih => simp [checkMembers, ih, Except.map]

theorem checkMembers_ok_eq {vs : List Value} {es : List Exc}
    (h : checkMembers vs = .ok es) : vs = es.map Value.exc := by
  induction vs generalizing es with
  | nil => cases h; rfl
  | cons v rest ih =>
      cases v with
      | exc e =>
          simp only [checkMembers] at h
          cases hrest : checkMembers rest with
          | ok es2 =>
              rw [hrest] at h
              simp [Except.map] at h
              subst h
              simp [ih hrest]
          | error e2 => rw [hrest] at h; simp [Except.map] at h
      | other n => simp [checkMembers] at h

theorem checkMembers_error_of_bad {vs : List Value}
    (h : ∃ v ∈ vs, v.isBaseException = false) :
    ∃ n, checkMembers vs = .error (.invalidMember (.other n)) ∧
      Value.other n ∈ vs := by
  induction vs with
  | nil => simp at h
  | cons v rest ih =>
      cases v with
      | exc e =>
          obtain ⟨w, hw, hwb⟩ := h
          rcases List.mem_cons.mp hw with h1 | h1
          · subst h1; simp [Value.isBaseException] at hwb
          · obtain ⟨n, hn, hmem⟩ := ih ⟨w, h1, hwb⟩
            exact ⟨n, by simp [checkMembers, hn, Except.map], by simp [hmem]⟩
      | other n =>
          exact ⟨n, by simp [checkMembers], by simp⟩

theorem construct_ok_of {m : String} {es : List Exc} {ss : List String}
    (hlen : ss.length = es.length) :
    construct m (es.map Value.exc) ss =
      .ok { message := m, exceptions := es, sources := ss, traceback := none,
            context := none, cause := none, suppress_context := false } := by
  simp [construct, checkMembers_map_exc, hlen]

theorem construct_ok_inv {m : String} {es : List Value} {ss : List String}
    {g : ExceptionGroup} (h : construct m es ss = .ok g) :
    es = g.exceptions.map Value.exc ∧ ss.length = g.exceptions.length ∧
      g = { message := m, exceptions := g.exceptions, sources := ss,
            traceback := none, context := none, cause := none,
            suppress_context := false } := by
  unfold construct at h
  split at h
  · exact absurd h (by simp)
  · next excs hc =>
      split at h
      · exact absurd h (by simp)
      · next hl =>
          push_neg at hl
          cases h
          exact ⟨checkMembers_ok_eq hc, hl, rfl⟩

theorem ExceptionGroup.copyMagicAttrs_eq (g dst : ExceptionGroup) :
    g.copyMagicAttrs dst =
      { dst with traceback := g.traceback, context := g.context,
                 cause := g.cause, suppress_context := g.suppress_context } := rfl

theorem listIndex_eq_none {x : Exc} {l : List Exc} (h : x ∉ l) :
    listIndex x l = none := by
  induction l with
  | nil => rfl
  | cons y ys ih =>
      simp only [List.mem_cons, not_or] at h
      simp [listIndex, Ne.symm h.1, ih h.2]

theorem listIndex_some_spec {x : Exc} {l : List Exc} {i : Nat}
    (h : listIndex x l = some i) :
    i < l.length ∧ l[i]? = some x ∧ ∀ j, j < i → l[j]? ≠ some x := by
  induction l generalizing i with
  | nil => simp [listIndex] at h
  | cons y ys ih =>
      by_cases hxy : y = x
      · simp [listIndex, hxy] at h
        subst h
        simp [hxy]
      · simp only [listIndex, hxy, if_false] at h
        cases hys : listIndex x ys with
        | none => rw [hys] at h; simp at h
        | some i2 =>
            rw [hys] at h
            simp at h
            subst h
            obtain ⟨h1, h2, h3⟩ := ih hys
            refine ⟨by simpa using h1, by simpa using h2, ?_⟩
            intro j hj
            cases j with
            | zero => simpa using hxy
            | succ j2 =>
                have := h3 j2 (by omega)
                simpa using this

theorem listIndex_mem {x : Exc} {l : List Exc} (h : x ∈ l) :
    ∃ i, listIndex x l = some i := by
  induction l with
  | nil => simp at h
  | cons y ys ih =>
      by_cases hxy : y = x
      · exact ⟨0, by simp [listIndex, hxy]⟩
      · rcases List.mem_cons.mp h with h1 | h1
        · exact absurd h1.symm hxy
        · obtain ⟨i, hi⟩ := ih h1
          exact ⟨i + 1, by simp [listIndex, hxy, hi]⟩

theorem listIndex_append_fresh {x : Exc} {l : List Exc} (h : x ∉ l) :
    listIndex x (l ++ [x]) = some l.length := by
  induction l with
  | nil => simp [listIndex]
  | cons y ys ih =>
      simp only [List.mem_cons, not_or] at h
      simp [listIndex, Ne.symm h.1, ih h.2]

theorem checkMembers_ok_of_all {vs : List Value}
    (h : ∀ v ∈ vs, v.isBaseException = true) :
    ∃ es, checkMembers vs = .ok es ∧ vs = es.map Value.exc := by
  induction vs with
  | nil => exact ⟨[], rfl, rfl⟩
  | cons v rest ih =>
      cases v with
      | exc e =>
          obtain ⟨es, hes, hveq⟩ := ih (fun w hw => h w (by simp [hw]))
          exact ⟨e :: es, by simp [checkMembers, hes, Except.map],
            by simp [hveq]⟩
      | other n =>
          have := h (.other n) (by simp)
          simp [Value.isBaseException] at this

theorem map_exc_inj {es es2 : List Exc}
    (h : es.map Value.exc = es2.map Value.exc) : es = es2 :=
  List.map_injective_iff.mpr (fun a b hab => by cases hab; rfl) h

theorem map_exc_append_inv {es es2 : List Exc} {v : Value}
    (h : es.map Value.exc ++ [v] = es2.map Value.exc) :
    ∃ e, v = .exc e ∧ es2 = es ++ [e] := by
  induction es generalizing es2 with
  | nil =>
      cases es2 with
      | nil => simp at h
      | cons e2 t2 =>
          simp at h
          obtain ⟨h1, h2⟩ := h
          cases t2 with
          | nil => exact ⟨e2, h1, by simp⟩
          | cons _ _ => simp at h2
  | cons a t ih =>
      cases es2 with
      | nil => simp at h
      | cons e2 t2 =>
          simp only [List.map_cons, List.cons_append, List.cons.injEq] at h
          obtain ⟨h1, h2⟩ := h
          cases h1
          obtain ⟨e, he, ht⟩ := ih h2
          exact ⟨e, he, by simp [ht]⟩

theorem copy_inv {g g2 : ExceptionGroup} (h : g.copy = some g2) :
    ∃ ng, construct g.message (g.exceptions.map Value.exc) g.sources = .ok ng ∧
      g2 = g.copyMagicAttrs ng := by
  unfold ExceptionGroup.copy at h
  split at h
  · next ng hok => cases h; exact ⟨ng, hok, rfl⟩
  · simp at h

theorem add_inv {g : ExceptionGroup} {v : Value} {s : String}
    {g2 : ExceptionGroup} (h : g.add v s = some g2) :
    ∃ ng, construct g.message (g.exceptions.map Value.exc ++ [v])
        (g.sources ++ [s]) = .ok ng ∧ g2 = g.copyMagicAttrs ng := by
  unfold ExceptionGroup.add at h
  split at h
  · next ng hok => cases h; exact ⟨ng, hok, rfl⟩
  · simp at h

theorem remove_inv {g : ExceptionGroup} {e : Exc} {g2 : ExceptionGroup}
    (h : g.remove e = .ok g2) :
    ∃ idx ng, listIndex e g.exceptions = some idx ∧
      construct g.message
          ((g.exceptions.take idx ++ g.exceptions.drop (idx + 1)).map Value.exc)
          (g.sources.take idx ++ g.sources.drop (idx + 1)) = .ok ng ∧
      g2 = g.copyMagicAttrs ng := by
  unfold ExceptionGroup.remove at h
  split at h
  · simp at h
  · next idx hidx =>
      split at h
      · next ng hok => cases h; exact ⟨idx, ng, hidx, hok, rfl⟩
      · simp at h

theorem filter_zip_map_fst {α β : Type} (p : α → Bool) (l1 : List α) :
    ∀ l2 : List β, l1.length ≤ l2.length →
      ((l1.zip l2).filter (fun x => p x.1)).map Prod.fst = l1.filter p := by
  induction l1 with
  | nil => intro l2 h; simp
  | cons a t ih =>
      intro l2 h
      cases l2 with
      | nil => simp at h
      | cons b t2 =>
          simp only [List.zip_cons_cons, List.filter_cons]
          by_cases hp : p a
          · simp [hp, ih t2 (by simpa using h)]
          · simp [hp, ih t2 (by simpa using h)]

theorem filter_head_first {α : Type} (p : α → Bool) {l : List α} {e : α}
    (h : (l.filter p).head? = some e) :
    ∃ pre post, l = pre ++ e :: post ∧ (∀ x ∈ pre, p x = false) ∧
      p e = true := by
  induction l with
  | nil => simp at h
  | cons a t ih =>
      by_cases hp : p a = true
      · rw [List.filter_cons_of_pos hp] at h
        simp at h
        subst h
        exact ⟨[], t, rfl, by simp, hp⟩
      · rw [Bool.not_eq_true] at hp
        rw [List.filter_cons_of_neg (by simp [hp])] at h
        obtain ⟨pre, post, h1, h2, h3⟩ := ih h
        refine ⟨a :: pre, post, by simp [h1], ?_, h3⟩
        intro x hx
        rcases List.mem_cons.mp hx with h4 | h4
        · subst h4; exact hp
        · exact h2 x h4

/-! ### Fixtures for the concrete witness theorems -/

def x1 : Exc := ⟨1, 10⟩
def x2 : Exc := ⟨2, 20⟩
def x3 : Exc := ⟨3, 20⟩

/-- An empty group. -/
def egEmpty : ExceptionGroup :=
  ⟨"m", [], [], none, none, none, false⟩

/-- A singleton group. -/
def egOne : ExceptionGroup :=
  ⟨"m", [x1], ["s1"], none, none, none, false⟩

/-- A two-member group with all four magic attributes non-default; note
`cause` is set while `suppress_context` is `false`. -/
def egTwo : ExceptionGroup :=
  ⟨"mm", [x1, x2], ["s1", "s2"], some 7, some x3, some x2, false⟩

/-! ### Claim theorems -/

/-- C1: `maybe_reraise` returns normally (raises nothing) when the group
holds no members; when the group holds exactly one member and `unwrap` is
true (the default) the value raised is that lone member itself; when
`unwrap` is false, or the group holds two or more members, the value
raised is the group itself; the raised value's `__cause__` is the ambient
in-flight exception (`sys.exc_info()[1]`) when `from_exception` is left at
its sentinel default `0`, and the explicitly passed exception (or explicit
`None`) otherwise. -/
theorem eg_maybe_reraise_spec (g : ExceptionGroup) (ambient : Option Exc)
    (fe : FromExc) (unwrap : Bool) :
    (g.count = 0 → g.maybeReraise ambient fe unwrap = none) ∧
    (∀ e, g.exceptions = [e] →
        g.maybeReraise ambient fe true =
          some (.child e,
            match fe with | .sentinel => ambient | .explicitly eo => eo)) ∧
    (∀ e, g.exceptions = [e] →
        g.maybeReraise ambient fe false =
          some (.group g,
            match fe with | .sentinel => ambient | .explicitly eo => eo)) ∧
    (2 ≤ g.count →
        g.maybeReraise ambient fe unwrap =
          some (.group g,
            match fe with | .sentinel => ambient | .explicitly eo => eo)) := by
  refine ⟨?_, ?_, ?_, ?_⟩
  · intro h
    have : g.exceptions = [] := List.length_eq_zero.mp h
    simp [ExceptionGroup.maybeReraise, this]
  · intro e he
    cases fe <;> simp [ExceptionGroup.maybeReraise, he]
  · intro e he
    cases fe <;> simp [ExceptionGroup.maybeReraise, he]
  · intro h
    unfold ExceptionGroup.count at h
    cases hex : g.exceptions with
    | nil => rw [hex] at h; simp at h
    | cons a t =>
        rw [hex] at h
        have hne : (t.length + 1 == 1) = false := by
          simp only [List.length_cons] at h
          simp only [beq_eq_false_iff_ne, ne_eq]
          omega
        cases fe <;>
          simp [ExceptionGroup.maybeReraise, hex, hne, Bool.and_eq_true]

/-- C1 witness: concrete groups exercising every hypothesis of
`eg_maybe_reraise_spec`. -/
theorem eg_maybe_reraise_spec_witness :
    egEmpty.maybeReraise (some x3) .sentinel true = none ∧
    egOne.maybeReraise (some x3) .sentinel true = some (.child x1, some x3) ∧
    egOne.maybeReraise (some x3) (.explicitly none) false =
      some (.group egOne, none) ∧
    egTwo.maybeReraise none (.explicitly (some x1)) true =
      some (.group egTwo, some x1) :=
  ⟨(eg_maybe_reraise_spec egEmpty (some x3) .sentinel true).1 rfl,
   (eg_maybe_reraise_spec egOne (some x3) .sentinel true).2.1 x1 rfl,
   (eg_maybe_reraise_spec egOne (some x3) (.explicitly none) false).2.2.1 x1 rfl,
   (eg_maybe_reraise_spec egTwo none (.explicitly (some x1)) true).2.2.2
     (by norm_num [ExceptionGroup.count, egTwo])⟩

/-- C2: `_copy_magic_attrs`, and every operation that calls it (`add`,
`remove`, `__copy__`), preserves `__cause__`, `__context__` and
`__suppress_context__` exactly on the new instance; since
`__suppress_context__` is assigned after `__cause__`, an original whose
`__suppress_context__` is explicitly `False` but whose `__cause__` is set
yields a copy whose `__suppress_context__` is still `False` — the implicit
flip-to-`True` of the `__cause__` setter does not win. -/
theorem eg_copy_preserves_causal_chain (g dst : ExceptionGroup) :
    ((g.copyMagicAttrs dst).cause = g.cause ∧
     (g.copyMagicAttrs dst).context = g.context ∧
     (g.copyMagicAttrs dst).suppress_context = g.suppress_context) ∧
    (∀ g2, g.copy = some g2 →
        g2.cause = g.cause ∧ g2.context = g.context ∧
        g2.suppress_context = g.suppress_context) ∧
    (∀ v s g2, g.add v s = some g2 →
        g2.cause = g.cause ∧ g2.context = g.context ∧
        g2.suppress_context = g.suppress_context) ∧
    (∀ e g2, g.remove e = .ok g2 →
        g2.cause = g.cause ∧ g2.context = g.context ∧
        g2.suppress_context = g.suppress_context) ∧
    (∀ c, g.cause = some c → g.suppress_context = false →
        ((g.copyMagicAttrs dst).setCause g.cause).suppress_context = true ∧
        (g.copyMagicAttrs dst).suppress_context = false) := by
  refine ⟨⟨rfl, rfl, rfl⟩, ?_, ?_, ?_, ?_⟩
  · intro g2 h
    obtain ⟨ng, _, hg2⟩ := copy_inv h
    subst hg2
    exact ⟨rfl, rfl, rfl⟩
  · intro v s g2 h
    obtain ⟨ng, _, hg2⟩ := add_inv h
    subst hg2
    exact ⟨rfl, rfl, rfl⟩
  · intro e g2 h
    obtain ⟨idx, ng, _, _, hg2⟩ := remove_inv h
    subst hg2
    exact ⟨rfl, rfl, rfl⟩
  · intro c _ hs
    exact ⟨rfl, by simp [ExceptionGroup.copyMagicAttrs_eq, hs]⟩

/-- C2 witness: a group with `cause` set and `suppress_context` explicitly
`False`; the copied instance keeps `suppress_context = False`. -/
theorem eg_copy_preserves_causal_chain_witness :
    (egTwo.copyMagicAttrs egOne).cause = some x2 ∧
    (egTwo.copyMagicAttrs egOne).suppress_context = false ∧
    ((egTwo.copyMagicAttrs egOne).setCause egTwo.cause).suppress_context
      = true :=
  ⟨((eg_copy_preserves_causal_chain egTwo egOne).1.1.trans rfl),
   ((eg_copy_preserves_causal_chain egTwo egOne).2.2.2.2 x2 rfl rfl).2,
   ((eg_copy_preserves_causal_chain egTwo egOne).2.2.2.2 x2 rfl rfl).1⟩

/-- C7: the invariant `len(children) == len(sources)` holds for every
group any operation returns: every successfully constructed group
satisfies it, and `add`, `remove` and `__copy__` always return groups
satisfying it. -/
theorem eg_length_invariant (g : ExceptionGroup) (m : String)
    (es : List Value) (ss : List String) :
    (∀ g2, construct m es ss = .ok g2 → g2.wf) ∧
    (∀ v s g2, g.add v s = some g2 → g2.wf) ∧
    (∀ e g2, g.remove e = .ok g2 → g2.wf) ∧
    (∀ g2, g.copy = some g2 → g2.wf) := by
  have hwf : ∀ (m2 : String) (es2 : List Value) (ss2 : List String) g2,
      construct m2 es2 ss2 = .ok g2 → g2.wf := by
    intro m2 es2 ss2 g2 h
    obtain ⟨_, hlen, hrec⟩ := construct_ok_inv h
    rw [hrec]
    exact hlen.symm
  have hattrs : ∀ ng : ExceptionGroup, ng.wf → (g.copyMagicAttrs ng).wf := by
    intro ng h
    simpa [ExceptionGroup.copyMagicAttrs_eq, ExceptionGroup.wf] using h
  refine ⟨hwf m es ss, ?_, ?_, ?_⟩
  · intro v s g2 h
    obtain ⟨ng, hok, hg2⟩ := add_inv h
    subst hg2
    exact hattrs ng (hwf _ _ _ ng hok)
  · intro e g2 h
    obtain ⟨idx, ng, _, hok, hg2⟩ := remove_inv h
    subst hg2
    exact hattrs ng (hwf _ _ _ ng hok)
  · intro g2 h
    obtain ⟨ng, hok, hg2⟩ := copy_inv h
    subst hg2
    exact hattrs ng (hwf _ _ _ ng hok)

/-- C7 witness: the invariant at the concrete results of `construct`,
`add`, `remove` and `__copy__` on `egTwo`. -/
theorem eg_length_invariant_witness :
    ExceptionGroup.wf ⟨"m", [x1], ["s1"], none, none, none, false⟩ ∧
    ExceptionGroup.wf
      ⟨"mm", [x1, x2, x3], ["s1", "s2", "s3"], some 7, some x3, some x2,
        false⟩ ∧
    ExceptionGroup.wf
      ⟨"mm", [x2], ["s2"], some 7, some x3, some x2, false⟩ ∧
    ExceptionGroup.wf
      ⟨"mm", [x1, x2], ["s1", "s2"], some 7, some x3, some x2, false⟩ :=
  ⟨(eg_length_invariant egTwo "m" [.exc x1] ["s1"]).1 _ rfl,
   (eg_length_invariant egTwo "m" [.exc x1] ["s1"]).2.1 (.exc x3) "s3" _ rfl,
   (eg_length_invariant egTwo "m" [.exc x1] ["s1"]).2.2.1 x1 _ rfl,
   (eg_length_invariant egTwo "m" [.exc x1] ["s1"]).2.2.2 _ rfl⟩

/-- C3: `remove` applied to a member of the group returns a new group
whose children and sources are the originals with exactly the first
matching position excised from both lists (later elements shift down by
one, order otherwise preserved) and with the causal-chain fields copied
from the original; applied to a non-member it fails with the `ValueError`
that reports the value and the group, leaving the original unchanged. -/
theorem eg_remove_spec (g : ExceptionGroup) (e : Exc) (hwf : g.wf) :
    (e ∉ g.exceptions → g.remove e = .error (.notAMember e g)) ∧
    (e ∈ g.exceptions → ∃ idx,
        idx < g.exceptions.length ∧
        g.exceptions[idx]? = some e ∧
        (∀ j, j < idx → g.exceptions[j]? ≠ some e) ∧
        g.remove e = .ok
          { message := g.message,
            exceptions := g.exceptions.take idx ++ g.exceptions.drop (idx + 1),
            sources := g.sources.take idx ++ g.sources.drop (idx + 1),
            traceback := g.traceback, context := g.context,
            cause := g.cause, suppress_context := g.suppress_context }) := by
  constructor
  · intro h
    unfold ExceptionGroup.remove
    rw [listIndex_eq_none h]
  · intro h
    obtain ⟨idx, hidx⟩ := listIndex_mem h
    obtain ⟨hlt, hget, hfirst⟩ := listIndex_some_spec hidx
    refine ⟨idx, hlt, hget, hfirst, ?_⟩
    have hlen : (g.sources.take idx ++ g.sources.drop (idx + 1)).length =
        (g.exceptions.take idx ++ g.exceptions.drop (idx + 1)).length := by
      have := hwf
      unfold ExceptionGroup.wf at this
      simp only [List.length_append, List.length_take, List.length_drop]
      omega
    simp only [ExceptionGroup.remove, hidx, construct_ok_of hlen]
    simp [ExceptionGroup.copyMagicAttrs_eq]

/-- C3 witness: removing the member `x1` from `egTwo` excises position 0
from both lists and keeps the magic attributes; removing the non-member
`x3` reports the value and the group. -/
theorem eg_remove_spec_witness :
    egTwo.remove x3 = .error (.notAMember x3 egTwo) ∧
    egTwo.remove x1 =
      .ok ⟨"mm", [x2], ["s2"], some 7, some x3, some x2, false⟩ := by
  constructor
  · exact (eg_remove_spec egTwo x3 (by decide)).1 (by decide)
  · obtain ⟨idx, hlt, hget, hfirst, heq⟩ :=
      (eg_remove_spec egTwo x1 (by decide)).2 (by decide)
    have hidx : idx = 0 := by
      by_contra hne
      exact hfirst 0 (Nat.pos_of_ne_zero hne) (by decide)
    subst hidx
    exact heq

/-- C4: add/remove round-trip — for every well-formed group `g` and fresh
exception `e` (not already a member), removing `e` from the result of
adding `e` with any source yields a group with the same message, the same
children sequence and the same sources sequence as `g`. -/
theorem eg_add_remove_round_trip (g : ExceptionGroup) (e : Exc) (s : String)
    (hwf : g.wf) (hfresh : e ∉ g.exceptions) :
    ∃ g2 g3, g.add (.exc e) s = some g2 ∧ g2.remove e = .ok g3 ∧
      g3.message = g.message ∧ g3.exceptions = g.exceptions ∧
      g3.sources = g.sources := by
  have hwl : g.exceptions.length = g.sources.length := hwf
  have hadd : g.add (.exc e) s =
      some (g.copyMagicAttrs
        { message := g.message, exceptions := g.exceptions ++ [e],
          sources := g.sources ++ [s], traceback := none, context := none,
          cause := none, suppress_context := false }) := by
    unfold ExceptionGroup.add
    rw [show g.exceptions.map Value.exc ++ [Value.exc e] =
        (g.exceptions ++ [e]).map Value.exc by simp]
    rw [construct_ok_of (by simp [hwl])]
  refine ⟨_, g, hadd, ?_, rfl, rfl, rfl⟩
  have hex : (g.copyMagicAttrs
      { message := g.message, exceptions := g.exceptions ++ [e],
        sources := g.sources ++ [s], traceback := none, context := none,
        cause := none,
        suppress_context := false } : ExceptionGroup).exceptions =
      g.exceptions ++ [e] := rfl
  have hsrc : (g.copyMagicAttrs
      { message := g.message, exceptions := g.exceptions ++ [e],
        sources := g.sources ++ [s], traceback := none, context := none,
        cause := none,
        suppress_context := false } : ExceptionGroup).sources =
      g.sources ++ [s] := rfl
  have ht1 : (g.exceptions ++ [e]).take g.exceptions.length =
      g.exceptions := List.take_left _ _
  have ht2 : (g.exceptions ++ [e]).drop (g.exceptions.length + 1) = [] :=
    List.drop_eq_nil_of_le (by simp)
  have ht3 : (g.sources ++ [s]).take g.exceptions.length = g.sources :=
    List.take_left' hwl.symm
  have ht4 : (g.sources ++ [s]).drop (g.exceptions.length + 1) = [] :=
    List.drop_eq_nil_of_le (by simp [hwl])
  simp only [ExceptionGroup.remove, hex, hsrc,
    listIndex_append_fresh hfresh, ht1, ht2, ht3, ht4, List.append_nil,
    construct_ok_of hwl.symm]
  rfl

/-- C4 witness: adding the fresh `x3` to `egTwo` and then removing it
gives back `egTwo`'s message, children and sources. -/
theorem eg_add_remove_round_trip_witness :
    ∃ g2 g3, egTwo.add (.exc x3) "s3" = some g2 ∧ g2.remove x3 = .ok g3 ∧
      g3.message = egTwo.message ∧ g3.exceptions = egTwo.exceptions ∧
      g3.sources = egTwo.sources :=
  eg_add_remove_round_trip egTwo x3 "s3" (by decide) (by decide)

/-- C5: `__init__`, given children and sources of equal length where every
child is a `BaseException`, succeeds and produces a group whose children
and sources are structurally equal, order-preserving copies of the inputs;
the copies are defensive (`list(...)`), so mutating the caller's original
list objects after construction does not change the instance's children or
sources. -/
theorem eg_construct_success_defensive (m : String) (es : List Exc)
    (ss : List String) (hE : Heap Value) (hS : Heap String) (aE aS : Nat)
    (hlen : ss.length = es.length) (hvE : hE.valid aE) (hvS : hS.valid aS) :
    (construct m (es.map Value.exc) ss =
      .ok { message := m, exceptions := es, sources := ss, traceback := none,
            context := none, cause := none, suppress_context := false }) ∧
    (∀ hE2 hS2 r, constructRef hE hS m aE aS = .ok (hE2, hS2, r) →
        hE2.read r.excAddr = hE.read aE ∧ hS2.read r.srcAddr = hS.read aS ∧
        ∀ xs ys, (hE2.write aE xs).read r.excAddr = hE.read aE ∧
                 (hS2.write aS ys).read r.srcAddr = hS.read aS) := by
  refine ⟨construct_ok_of hlen, ?_⟩
  intro hE2 hS2 r h
  unfold constructRef at h
  split at h
  · simp at h
  · next excs hc =>
      split at h
      · simp at h
      · simp only [Heap.alloc, Except.ok.injEq, Prod.mk.injEq] at h
        obtain ⟨h1, h2, h3⟩ := h
        subst h1
        subst h2
        subst h3
        have hneE : aE ≠ hE.cells.length := Nat.ne_of_lt hvE
        have hneS : aS ≠ hS.cells.length := Nat.ne_of_lt hvS
        refine ⟨?_, ?_, fun xs ys => ⟨?_, ?_⟩⟩
        · simp [Heap.read, List.getD_eq_getElem?_getD,
            List.getElem?_concat_length]
        · simp [Heap.read, List.getD_eq_getElem?_getD,
            List.getElem?_concat_length]
        · simp [Heap.read, Heap.write, List.getD_eq_getElem?_getD,
            List.getElem?_set_ne hneE, List.getElem?_concat_length]
        · simp [Heap.read, Heap.write, List.getD_eq_getElem?_getD,
            List.getElem?_set_ne hneS, List.getElem?_concat_length]

/-- C5 witness: a concrete one-member construction, plus the heap variant
where the caller's list objects (cell 0 of each heap) are cleared after
construction; the instance's cells (address 1) still hold the originals. -/
theorem eg_construct_success_defensive_witness :
    construct "m" [Value.exc x1] ["s"] =
      .ok ⟨"m", [x1], ["s"], none, none, none, false⟩ ∧
    ((Heap.mk [[Value.exc x1], [Value.exc x1]] : Heap Value).write 0 []).read 1
      = [Value.exc x1] ∧
    ((Heap.mk [["s"], ["s"]] : Heap String).write 0 []).read 1 = ["s"] := by
  have h := eg_construct_success_defensive "m" [x1] ["s"]
    ⟨[[Value.exc x1]]⟩ ⟨[["s"]]⟩ 0 0 rfl (by decide) (by decide)
  have h2 := h.2 ⟨[[Value.exc x1], [Value.exc x1]]⟩ ⟨[["s"], ["s"]]⟩
    ⟨"m", 1, 1⟩ rfl
  exact ⟨h.1, (h2.2.2 [] []).1, (h2.2.2 [] []).2⟩

/-- C6: `__init__` fails with `TypeError` identifying an offending value
whenever some element of `exceptions` is not a `BaseException`, and fails
with `ValueError` reporting both lengths whenever all elements conform but
the two lengths differ; in either case no instance is produced. -/
theorem eg_construct_failure_spec (m : String) (es : List Value)
    (ss : List String) :
    ((∃ v ∈ es, v.isBaseException = false) →
        ∃ w, construct m es ss = .error (.invalidMember w) ∧ w ∈ es ∧
          w.isBaseException = false) ∧
    ((∀ v ∈ es, v.isBaseException = true) → ss.length ≠ es.length →
        construct m es ss = .error (.lengthMismatch ss.length es.length)) ∧
    (∀ err, construct m es ss = .error err →
        ∀ g, construct m es ss ≠ .ok g) := by
  refine ⟨?_, ?_, ?_⟩
  · intro h
    obtain ⟨n, hn, hmem⟩ := checkMembers_error_of_bad h
    exact ⟨.other n, by simp [construct, hn], hmem, rfl⟩
  · intro hall hlen
    obtain ⟨excs, hok, heq⟩ := checkMembers_ok_of_all hall
    have hlen2 : ss.length ≠ excs.length := by
      rw [heq] at hlen
      simpa using hlen
    have helen : es.length = excs.length := by simp [heq]
    rw [helen]
    simp [construct, hok, hlen2]
  · intro err herr g hg
    rw [herr] at hg
    exact Except.noConfusion hg

/-- C6 witness: a length mismatch at concrete input, and a concrete
non-exception member identified in the `TypeError`. -/
theorem eg_construct_failure_spec_witness :
    construct "m" [Value.exc x1] [] = .error (.lengthMismatch 0 1) ∧
    construct "m" [Value.other 9] ["a"] =
      .error (.invalidMember (.other 9)) := by
  constructor
  · exact (eg_construct_failure_spec "m" [Value.exc x1] []).2.1
      (by intro v hv; simp at hv; subst hv; rfl) (by decide)
  · obtain ⟨w, hw, hmem, _⟩ :=
      (eg_construct_failure_spec "m" [Value.other 9] ["a"]).1
        ⟨.other 9, by simp, rfl⟩
    have hw9 : w = .other 9 := by simpa using hmem
    rwa [hw9] at hw

/-- C9: when some element of `exceptions` is not a `BaseException` and the
lengths also differ, the failure raised is the `TypeError` for the
offending member, never the `ValueError` for the length mismatch — the
membership loop runs before the length comparison. -/
theorem eg_member_check_precedes_length_check (m : String) (es : List Value)
    (ss : List String) (hbad : ∃ v ∈ es, v.isBaseException = false)
    (hlen : ss.length ≠ es.length) :
    ∃ w, construct m es ss = .error (.invalidMember w) ∧ w ∈ es ∧
      w.isBaseException = false ∧
      ∀ a b, construct m es ss ≠ .error (.lengthMismatch a b) := by
  obtain ⟨n, hn, hmem⟩ := checkMembers_error_of_bad hbad
  have hc : construct m es ss = .error (.invalidMember (.other n)) := by
    simp [construct, hn]
  refine ⟨.other n, hc, hmem, rfl, ?_⟩
  intro a b hcontra
  rw [hc] at hcontra
  simp at hcontra

/-- C9 witness: one bad member and mismatched lengths — the result is the
`TypeError`, not the `ValueError`. -/
theorem eg_member_check_precedes_length_check_witness :
    construct "m" [Value.other 9] ["a", "b"] =
      .error (.invalidMember (.other 9)) := by
  obtain ⟨w, hw, hmem, _, _⟩ :=
    eg_member_check_precedes_length_check "m" [Value.other 9] ["a", "b"]
      ⟨.other 9, by simp, rfl⟩ (by decide)
  have hw9 : w = .other 9 := by simpa using hmem
  rwa [hw9] at hw

/-- C8: `findall` yields exactly the children satisfying the predicate,
finitely and in the original child order (a subsequence of the children);
a type or tuple-of-types predicate resolves to the `isinstance` test on
the child's runtime kind; `with_source=True` changes only the yielded
shape from bare child to (child, source) pair; `find` returns the first
match (or first pair) and `None` when no child matches.  Both are pure
queries of the child list. -/
theorem eg_find_findall_spec (g : ExceptionGroup) (p : Predicate)
    (hwf : g.wf) :
    (g.findall p).Sublist g.exceptions ∧
    (∀ e, e ∈ g.findall p ↔ e ∈ g.exceptions ∧ p.resolve e = true) ∧
    ((g.findallWithSource p).map Prod.fst = g.findall p) ∧
    (∀ k e, Predicate.resolve (.kind k) e = (e.kind == k)) ∧
    (∀ ks e, Predicate.resolve (.kinds ks) e = ks.contains e.kind) ∧
    (g.find p = (g.findall p).head?) ∧
    (g.find p = none ↔ ∀ e ∈ g.exceptions, p.resolve e = false) ∧
    (∀ e, g.find p = some e → ∃ pre post, g.exceptions = pre ++ e :: post ∧
        (∀ x ∈ pre, p.resolve x = false) ∧ p.resolve e = true) ∧
    (g.findWithSource p = (g.findallWithSource p).head?) := by
  refine ⟨List.filter_sublist _, fun e => List.mem_filter, ?_,
    fun k e => rfl, fun ks e => rfl, rfl, ?_, ?_, rfl⟩
  · exact filter_zip_map_fst _ _ _ (le_of_eq hwf)
  · unfold ExceptionGroup.find ExceptionGroup.findall
    rw [List.head?_eq_none_iff, List.filter_eq_nil_iff]
    constructor
    · intro h e he
      simpa using h e he
    · intro h a ha
      simp [h a ha]
  · intro e he
    exact filter_head_first _ he

/-- C8 witness: concrete queries on `egTwo` (children kinds 10 and 20),
including the pair-shape relation and a query with no match. -/
theorem eg_find_findall_spec_witness :
    (egTwo.findallWithSource (.kinds [10, 20])).map Prod.fst =
      egTwo.findall (.kinds [10, 20]) ∧
    egTwo.find (.callable (fun e => e.id == 5)) = none ∧
    (egTwo.findall (.kind 20)).Sublist egTwo.exceptions :=
  ⟨(eg_find_findall_spec egTwo (.kinds [10, 20]) (by decide)).2.2.1,
   (eg_find_findall_spec egTwo (.callable (fun e => e.id == 5))
      (by decide)).2.2.2.2.2.2.1.mpr (by decide),
   (eg_find_findall_spec egTwo (.kind 20) (by decide)).1⟩

/-- C10: `add`, `remove` and `__copy__` copy the original's
`__traceback__` onto the new instance as well, in addition to the three
causal-chain fields; beyond message, children, sources and these four
fields, nothing of the original determines the new instance — each result
is exactly the record built from those fields. -/
theorem eg_new_instance_attrs (g dst : ExceptionGroup) :
    ((g.copyMagicAttrs dst).traceback = g.traceback) ∧
    (∀ g2, g.copy = some g2 →
        g2 = { message := g.message, exceptions := g.exceptions,
               sources := g.sources, traceback := g.traceback,
               context := g.context, cause := g.cause,
               suppress_context := g.suppress_context }) ∧
    (∀ v s g2, g.add v s = some g2 → ∃ e, v = .exc e ∧
        g2 = { message := g.message, exceptions := g.exceptions ++ [e],
               sources := g.sources ++ [s], traceback := g.traceback,
               context := g.context, cause := g.cause,
               suppress_context := g.suppress_context }) ∧
    (∀ e g2, g.remove e = .ok g2 → ∃ idx,
        g2 = { message := g.message,
               exceptions :=
                 g.exceptions.take idx ++ g.exceptions.drop (idx + 1),
               sources := g.sources.take idx ++ g.sources.drop (idx + 1),
               traceback := g.traceback, context := g.context,
               cause := g.cause,
               suppress_context := g.suppress_context }) := by
  refine ⟨rfl, ?_, ?_, ?_⟩
  · intro g2 h
    obtain ⟨ng, hok, hg2⟩ := copy_inv h
    obtain ⟨h1, _, hrec⟩ := construct_ok_inv hok
    have hex : ng.exceptions = g.exceptions := (map_exc_inj h1).symm
    subst hg2
    rw [ExceptionGroup.copyMagicAttrs_eq, hrec]
    simp [hex]
  · intro v s g2 h
    obtain ⟨ng, hok, hg2⟩ := add_inv h
    obtain ⟨h1, _, hrec⟩ := construct_ok_inv hok
    obtain ⟨e, hv, hng⟩ := map_exc_append_inv h1
    refine ⟨e, hv, ?_⟩
    subst hg2
    rw [ExceptionGroup.copyMagicAttrs_eq, hrec]
    simp [hng]
  · intro e g2 h
    obtain ⟨idx, ng, hidx, hok, hg2⟩ := remove_inv h
    obtain ⟨h1, _, hrec⟩ := construct_ok_inv hok
    have hex : ng.exceptions =
        g.exceptions.take idx ++ g.exceptions.drop (idx + 1) :=
      (map_exc_inj h1).symm
    refine ⟨idx, ?_⟩
    subst hg2
    rw [ExceptionGroup.copyMagicAttrs_eq, hrec]
    simp [hex]

/-- C10 witness: the copied traceback on a concrete pair, and
`__copy__` of `egTwo` reproducing `egTwo` exactly (all seven fields). -/
theorem eg_new_instance_attrs_witness :
    (egTwo.copyMagicAttrs egOne).traceback = some 7 ∧
    egTwo.copy = some egTwo := by
  refine ⟨(eg_new_instance_attrs egTwo egOne).1.trans rfl, ?_⟩
  have hc : egTwo.copy = some (egTwo.copyMagicAttrs
      ⟨"mm", [x1, x2], ["s1", "s2"], none, none, none, false⟩) := rfl
  exact hc.trans
    (congrArg some ((eg_new_instance_attrs egTwo egOne).2.1 _ hc))
